import Mathlib

/-
Verification of the ETL_Example_Project pipeline.

Shallow embedding of the core of the repository:
  * field_data_processor.py : FieldDataProcessor (rename_columns,
    apply_corrections, process with its left merge and column drop),
  * weather_data_processor.py : WeatherDataProcessor (extract_measurement,
    process_messages),
  * analysis.py : measurements_to_compare, filter_field_data,
    filter_weather_data, print_ttest_results, hypothesis_results.

A pandas DataFrame is modelled as a header of column names plus row-major
data.  A cell is null (NaN / None), a rational number (Python floats are
modelled as exact rationals), or a string.  Python exceptions are modelled
by Option / Except: a none / error result stands for a raised exception.
External collaborators (the scipy t-test, the re regex engine, Python's
float() parser, the data-ingestion layer) are taken as parameters, exactly
as the source code receives their outputs.
-/

/-- Cell of a DataFrame.  null models both NaN and None; num models a
Python numeric value; str models a Python string value. -/
inductive Cell where
  | null : Cell
  | num : ℚ → Cell
  | str : String → Cell
deriving DecidableEq

/-- A pandas DataFrame: ordered column names and row-major cell data. -/
structure DFrame where
  header : List String
  rows : List (List Cell)
deriving DecidableEq

/-- Index of the first column carrying a given label, none when the label is
absent (pandas label lookup; absence raises KeyError in the source). -/
def colIdx (name : String) : List String → Option Nat
  | [] => none
  | n :: ns => if n = name then some 0 else (colIdx name ns).map (fun i => i + 1)

/-- Column getter: the data of the column labelled name.  Used to state
theorems; mirrors df[name] in pandas. -/
def DFrame.col (df : DFrame) (name : String) : Option (List Cell) :=
  (colIdx name df.header).map (fun i => df.rows.map (fun r => r.getD i Cell.null))

/-- Exception-propagating elementwise map: a Python loop over the elements
that stops at the first raised exception (modelled by none). -/
def mapE (f : α → Option β) : List α → Option (List β)
  | [] => some []
  | x :: xs =>
    match f x with
    | none => none
    | some y =>
      match mapE f xs with
      | none => none
      | some ys => some (y :: ys)

/-- Fuel-indexed form of the temporary-name loop of
FieldDataProcessor.rename_columns (field_data_processor.py lines 111-113):
append an underscore while the candidate collides with an existing column
name.  Each iteration that consumes fuel strictly lengthens the candidate,
so each collision is with a distinct column: cols.length + 1 units of fuel
always reach the exit condition (theorem freshTemp_not_mem below), making
the fuel version extensionally the Python while loop. -/
def freshTempAux (cols : List String) : Nat → String → String
  | 0, t => t
  | fuel + 1, t => if t ∈ cols then freshTempAux cols fuel (t ++ "_") else t

/-- Temporary-name computation of FieldDataProcessor.rename_columns:
start from the marker string and lengthen until unique. -/
def freshTemp (cols : List String) (t : String) : String :=
  freshTempAux cols (cols.length + 1) t

/-- FieldDataProcessor.rename_columns (field_data_processor.py lines
107-117).  column1 is the first key and column2 the first value of the
columns_to_rename dict (only the first pair is used).  The first rename
applies the dict literal with entries column1 to temp_name and column2 to
column1 (in a Python dict literal a repeated key keeps the later value, so
when column1 = column2 the single entry maps it to column1); the second
rename maps temp_name to column2.  An empty dict makes the subscript [0]
raise IndexError. -/
def rename_columns (columns_to_rename : List (String × String)) (df : DFrame) :
    Except String DFrame :=
  match columns_to_rename with
  | [] => Except.error "IndexError: list index out of range"
  | (column1, column2) :: _ =>
    let temp_name := freshTemp df.header "__temp_name_for_swap__"
    let df1 : DFrame :=
      { header := df.header.map
          (fun n => if n = column2 then column1 else if n = column1 then temp_name else n),
        rows := df.rows }
    let df2 : DFrame :=
      { header := df1.header.map (fun n => if n = temp_name then column2 else n),
        rows := df1.rows }
    Except.ok df2

/-- Transposition of two column names, used to state what the rename swap
does: a becomes b, b becomes a, all other names are unchanged. -/
def swapName (a b n : String) : String :=
  if n = a then b else if n = b then a else n

/-- Per-cell crop correction of FieldDataProcessor.apply_corrections
(field_data_processor.py line 128): values_to_rename.get(crop, crop).
A value absent from the lookup passes through unchanged; non-string cells
are never dict keys and also pass through. -/
def correctVal (values_to_rename : List (String × String)) : Cell → Cell
  | Cell.str s =>
    match values_to_rename.lookup s with
    | some t => Cell.str t
    | none => Cell.str s
  | v => v

/-- Pandas Series.abs applied to one cell (field_data_processor.py line
127): absolute value of a number, NaN propagates, a string raises
TypeError (modelled by none). -/
def Cell.vabs : Cell → Option Cell
  | Cell.num q => some (Cell.num |q|)
  | Cell.null => some Cell.null
  | Cell.str _ => none

/-- Total companion of Cell.vabs, used to state results: absolute value on
numbers, identity elsewhere.  It agrees with Cell.vabs wherever the latter
succeeds. -/
def absCell : Cell → Cell
  | Cell.num q => Cell.num |q|
  | v => v

/-- Replace the cells of the column labelled name by f, propagating a
missing column (KeyError) and any per-cell exception. -/
def DFrame.mapColE (df : DFrame) (name : String) (f : Cell → Option Cell) :
    Option DFrame := do
  let i ← colIdx name df.header
  let rows ← mapE (fun r => (r[i]?).bind (fun v => (f v).map (fun w => r.set i w))) df.rows
  some { header := df.header, rows := rows }

/-- FieldDataProcessor.apply_corrections (field_data_processor.py lines
119-128): absolute value on abs_column, then the lookup correction on
column_name.  In process the defaults column_name = Crop_type and
abs_column = Elevation are used. -/
def apply_corrections (values_to_rename : List (String × String))
    (column_name abs_column : String) (df : DFrame) : Option DFrame := do
  let df1 ← df.mapColE abs_column Cell.vabs
  df1.mapColE column_name (fun v => some (correctVal values_to_rename v))

/-- Pandas left merge l.merge(r, on range key, how left)
(field_data_processor.py line 145).  Output columns are the left columns
followed by the right columns without the key; each left row is emitted
once per matching right row, or once with null-filled right cells when no
right row matches.  A missing key column raises KeyError (none).  Merge
key matching is structural (pandas merge keys treat NaN as equal to NaN). -/
def DFrame.mergeLeft (l r : DFrame) (key : String) : Option DFrame := do
  let li ← colIdx key l.header
  let ri ← colIdx key r.header
  let rHeader := r.header.eraseIdx ri
  some { header := l.header ++ rHeader,
         rows := l.rows.flatMap (fun lrow =>
           let k := lrow.getD li Cell.null
           let ms := r.rows.filter (fun rrow => decide (rrow.getD ri Cell.null = k))
           if ms.isEmpty then [lrow ++ List.replicate rHeader.length Cell.null]
           else ms.map (fun rrow => lrow ++ rrow.eraseIdx ri)) }

/-- Cells of a row that survive dropping the column labelled name: keep the
cells whose header entry differs from name. -/
def dropCells (hdr : List String) (name : String) (r : List Cell) : List Cell :=
  ((hdr.zip r).filter (fun p => decide (p.1 ≠ name))).map Prod.snd

/-- Pandas df.drop(columns = name) (field_data_processor.py line 146):
remove every column labelled name; raise KeyError (none) when the label is
absent. -/
def DFrame.dropCol (df : DFrame) (name : String) : Option DFrame :=
  match colIdx name df.header with
  | none => none
  | some _ =>
    some { header := df.header.filter (fun n => decide (n ≠ name)),
           rows := df.rows.map (fun r => dropCells df.header name r) }

/-- Fusion part of FieldDataProcessor.process (field_data_processor.py
lines 145-146): left merge with the station mapping on Field_ID, then drop
the positional-index artifact column Unnamed: 0. -/
def fuse_with_mapping (df wmap : DFrame) : Option DFrame :=
  (DFrame.mergeLeft df wmap "Field_ID").bind (fun m => m.dropCol "Unnamed: 0")

/-- The successive statements of FieldDataProcessor.process
(field_data_processor.py lines 139-149), in source order. -/
inductive Step where
  | ingest : Step
  | rename : Step
  | corrections : Step
  | mapping : Step
  | merge : Step
  | drop : Step
deriving DecidableEq

/-- FieldDataProcessor.process (field_data_processor.py lines 139-149) as
a step trace: the list of statements that completed, paired with the final
result (an error component models an uncaught Python exception).  raw is
the table produced by ingest_sql_data and wmap the table read by
weather_station_mapping; both come from the external data-ingestion
collaborators. -/
def processTrace (columns_to_rename values_to_rename : List (String × String))
    (raw wmap : DFrame) : List Step × Except String DFrame :=
  let done := [Step.ingest]
  match rename_columns columns_to_rename raw with
  | Except.error e => (done, Except.error e)
  | Except.ok df1 =>
    let done := done ++ [Step.rename]
    match apply_corrections values_to_rename "Crop_type" "Elevation" df1 with
    | none => (done, Except.error "KeyError")
    | some df2 =>
      let done := done ++ [Step.corrections]
      let done := done ++ [Step.mapping]
      match DFrame.mergeLeft df2 wmap "Field_ID" with
      | none => (done, Except.error "KeyError: Field_ID")
      | some df3 =>
        let done := done ++ [Step.merge]
        match df3.dropCol "Unnamed: 0" with
        | none => (done, Except.error "KeyError: Unnamed: 0")
        | some df4 => (done ++ [Step.drop], Except.ok df4)

/-- Behaviour of one compiled regex under re.search (the external re
engine): given the message, either no match (none) or the tuple
match.groups() of optional captured-group strings. -/
abbrev Pattern := String → Option (List (Option String))

/-- First non-null captured group: next(x for x in match.groups() if x is
not None).  none models the StopIteration raised when every group is
null. -/
def firstSome : List (Option String) → Option String
  | [] => none
  | x :: rest =>
    match x with
    | some s => some s
    | none => firstSome rest

/-- WeatherDataProcessor.extract_measurement (weather_data_processor.py
lines 95-111).  Patterns are tried in declaration order; the first whose
re.search matches wins and its first non-null group is parsed by float()
(pyfloat, the external Python parser; none models ValueError).  No match
at all returns (None, None).  The outer none models an exception
(StopIteration from an all-null group tuple, or a float() failure). -/
def extract_measurement (pyfloat : String → Option ℚ)
    (patterns : List (String × Pattern)) (message : String) :
    Option (Option String × Option ℚ) :=
  match patterns with
  | [] => some (none, none)
  | (key, pat) :: rest =>
    match pat message with
    | some groups =>
      match firstSome groups with
      | some s => (pyfloat s).map (fun q => (some key, some q))
      | none => none
    | none => extract_measurement pyfloat rest message

/-- The extracted pair as the two cells stored in the Measurement and
Value columns (None is stored as a null cell). -/
def optsToCells (r : Option String × Option ℚ) : Cell × Cell :=
  (match r.1 with
   | some k => Cell.str k
   | none => Cell.null,
   match r.2 with
   | some q => Cell.num q
   | none => Cell.null)

/-- Pandas column assignment df[name] = vals: replace the column when the
label exists, otherwise append a new column on the right. -/
def DFrame.setColVals (df : DFrame) (name : String) (vals : List Cell) : DFrame :=
  match colIdx name df.header with
  | some i =>
    { header := df.header, rows := List.zipWith (fun r v => r.set i v) df.rows vals }
  | none =>
    { header := df.header ++ [name],
      rows := List.zipWith (fun r v => r ++ [v]) df.rows vals }

/-- WeatherDataProcessor.process_messages (weather_data_processor.py lines
113-123), on an already loaded weather_df.  Extraction is applied to every
Message cell (re.search on a non-string raises TypeError, modelled by
none).  The two derived columns are materialized through
zip(star result): on a table with zero rows that tuple unpacking raises
ValueError (not enough values to unpack), modelled by none. -/
def process_messages (pyfloat : String → Option ℚ)
    (patterns : List (String × Pattern)) (wdf : DFrame) : Option DFrame := do
  let mi ← colIdx "Message" wdf.header
  let results ← mapE (fun r =>
    match r.getD mi Cell.null with
    | Cell.str s => extract_measurement pyfloat patterns s
    | _ => none) wdf.rows
  match results with
  | [] => none
  | _ :: _ =>
    let pairs := results.map optsToCells
    some ((wdf.setColVals "Measurement" (pairs.map Prod.fst)).setColVals "Value"
      (pairs.map Prod.snd))

/-- Module-level canonical measurement list (analysis.py line 5). -/
def measurements_to_compare : List String := ["Temperature", "Rainfall", "Pollution_level"]

/-- Python elementwise equality of a Series against a scalar (the ==
filters of analysis.py): NaN compares unequal to everything, values of
different types compare unequal. -/
def Cell.pyEq : Cell → Cell → Bool
  | Cell.num a, Cell.num b => decide (a = b)
  | Cell.str a, Cell.str b => decide (a = b)
  | _, _ => false

/-- analysis.filter_field_data (analysis.py lines 7-9): rows of the fused
field table whose Weather_station equals the station id, projected on the
measurement column. -/
def filter_field_data (df : DFrame) (station_id : Cell) (measurement : String) :
    Option (List Cell) := do
  let wi ← colIdx "Weather_station" df.header
  let mi ← colIdx measurement df.header
  some ((df.rows.filter (fun r => Cell.pyEq (r.getD wi Cell.null) station_id)).map
    (fun r => r.getD mi Cell.null))

/-- analysis.filter_weather_data (analysis.py lines 11-13): rows of the
parsed weather table whose Weather_station_ID equals the station id and
whose Measurement equals the measurement name, projected on Value. -/
def filter_weather_data (df : DFrame) (station_id : Cell) (measurement : String) :
    Option (List Cell) := do
  let si ← colIdx "Weather_station_ID" df.header
  let mi ← colIdx "Measurement" df.header
  let vi ← colIdx "Value" df.header
  some ((df.rows.filter (fun r =>
      Cell.pyEq (r.getD si Cell.null) station_id &&
      Cell.pyEq (r.getD mi Cell.null) (Cell.str measurement))).map
    (fun r => r.getD vi Cell.null))

/-- A p-value as produced by scipy.stats.ttest_ind: either the IEEE NaN
(the statistically undefined case) or an ordinary number. -/
inductive PVal where
  | nan : PVal
  | val : ℚ → PVal
deriving DecidableEq

/-- The Python comparison p_val <= alpha of analysis.print_ttest_results:
IEEE semantics, NaN <= alpha is False. -/
def PVal.pyLe (p : PVal) (alpha : ℚ) : Bool :=
  match p with
  | PVal.nan => false
  | PVal.val q => decide (q ≤ alpha)

/-- One printed verdict line of analysis.print_ttest_results.  significant
true is the if-branch line (Significant difference ... Null hypothesis
rejected), significant false the else-branch line (No significant
difference ... Null hypothesis not rejected); p_shown is the p-value
rendered inside the line by the format f string (NaN renders as nan). -/
structure TTestLine where
  station : Cell
  measurement : String
  significant : Bool
  p_shown : PVal
deriving DecidableEq

/-- analysis.print_ttest_results (analysis.py lines 19-26): the emitted
line, branching on p_val <= alpha. -/
def print_ttest_results (station_id : Cell) (measurement : String) (p_val : PVal)
    (alpha : ℚ) : TTestLine :=
  { station := station_id, measurement := measurement,
    significant := p_val.pyLe alpha, p_shown := p_val }

/-- Python sorted comparison restricted to the numeric station ids the
pipeline produces (Python raises TypeError on mixed types; non-numeric
cells are outside the modelled comparisons). -/
def Cell.le : Cell → Cell → Bool
  | Cell.num a, Cell.num b => decide (a ≤ b)
  | _, _ => false

/-- Insertion step of the model of Python sorted. -/
def insertVal (x : Cell) : List Cell → List Cell
  | [] => [x]
  | y :: ys => if Cell.le x y then x :: y :: ys else y :: insertVal x ys

/-- Model of Python sorted on the station-id list (insertion sort,
ascending under Cell.le). -/
def sortVals : List Cell → List Cell
  | [] => []
  | x :: xs => insertVal x (sortVals xs)

/-- Keep-first duplicate removal with an accumulator of already seen
values: pandas Series.unique preserves the order of first appearance. -/
def uniqueAux : List Cell → List Cell → List Cell
  | [], _ => []
  | x :: xs, seen =>
    if x ∈ seen then uniqueAux xs seen else x :: uniqueAux xs (x :: seen)

/-- Pandas Series.unique: first occurrences in order of appearance. -/
def uniqueVals (l : List Cell) : List Cell := uniqueAux l []

/-- analysis.hypothesis_results (analysis.py lines 28-41).  ttest stands
for run_ttest (analysis.py lines 15-17), which delegates to the external
scipy.stats.ttest_ind with equal_var False; only the p-value component is
consumed.  Stations are the sorted unique Weather_station_ID values of the
weather table; the inner loop walks the module-level
measurements_to_compare, not the caller-supplied
list_measurements_to_compare.  The output is the list of printed verdict
lines in emission order (the blank print() separating station blocks
carries no data and is not represented). -/
def hypothesis_results (ttest : List Cell → List Cell → PVal)
    (field_df weather_df : DFrame) (list_measurements_to_compare : List String)
    (alpha : ℚ) : Option (List TTestLine) := do
  let si ← colIdx "Weather_station_ID" weather_df.header
  let stations := sortVals (uniqueVals (weather_df.rows.map (fun r => r.getD si Cell.null)))
  let blocks ← mapE (fun station_id =>
    mapE (fun measurement => do
      let field_values ← filter_field_data field_df station_id measurement
      let weather_values ← filter_weather_data weather_df station_id measurement
      some (print_ttest_results station_id measurement
        (ttest field_values weather_values) alpha)) measurements_to_compare) stations
  some blocks.flatten

/-- Concrete field table for witnesses: the spec scenario with columns
Annual_yield and Crop_type side by side. -/
def exDF : DFrame :=
  { header := ["Field_ID", "Annual_yield", "Crop_type"],
    rows := [[Cell.num 1, Cell.num 5, Cell.str "wheatn"],
             [Cell.num 2, Cell.num 7, Cell.str "maize"]] }

/-- Concrete model of float() for witnesses. -/
def pfEx : String → Option ℚ :=
  fun s => if s = "5.28" then some ((132 : ℚ) / 25) else none

/-- Concrete behaviour of the temperature regex on one message, for
witnesses: the pattern matches the message and captures the groups 5.28
and .28. -/
def patEx : Pattern :=
  fun m => if m = "Cold today, 5.28C" then some [some "5.28", some ".28"] else none

/-- Concrete weather table for witnesses. -/
def wdfEx : DFrame :=
  { header := ["Weather_station_ID", "Message"],
    rows := [[Cell.num 1, Cell.str "Cold today, 5.28C"]] }

/-- Weather table with zero rows (counterexample input). -/
def emptyWdf : DFrame :=
  { header := ["Weather_station_ID", "Message"], rows := [] }

/-- Concrete fused field table for the analysis witnesses. -/
def fieldEx : DFrame :=
  { header := ["Weather_station", "Temperature", "Rainfall", "Pollution_level"],
    rows := [[Cell.num 1, Cell.num 20, Cell.num 5, Cell.num 2]] }

/-- Concrete parsed weather table for the analysis witnesses. -/
def weatherEx : DFrame :=
  { header := ["Weather_station_ID", "Measurement", "Value"],
    rows := [[Cell.num 1, Cell.str "Temperature", Cell.num 25]] }

/-- Concrete stand-in for the scipy t-test in witnesses. -/
def ttestEx : List Cell → List Cell → PVal := fun _ _ => PVal.nan

/-- Concrete mapping table for the fusion witnesses. -/
def wmapEx : DFrame :=
  { header := ["Unnamed: 0", "Field_ID", "Weather_station"],
    rows := [[Cell.num 0, Cell.num 1, Cell.num 7]] }

/-- Concrete field table for the fusion witnesses. -/
def fuseFieldEx : DFrame :=
  { header := ["Field_ID", "Elevation"],
    rows := [[Cell.num 1, Cell.num 10], [Cell.num 2, Cell.num 20]] }

/-! Helper lemmas about the embedding. -/

theorem colIdx_lt_length {name : String} :
    ∀ {l : List String} {i : Nat}, colIdx name l = some i → i < l.length := by
  intro l
  induction l with
  | nil => intro i h; cases h
  | cons n ns ih =>
    intro i h
    rw [colIdx] at h
    by_cases hn : n = name
    · rw [if_pos hn] at h
      cases h
      simp
    · rw [if_neg hn] at h
      rcases Option.map_eq_some'.mp h with ⟨j, hj, rfl⟩
      have := ih hj
      simp
      omega

theorem colIdx_get {name : String} :
    ∀ {l : List String} {i : Nat}, colIdx name l = some i → l[i]? = some name := by
  intro l
  induction l with
  | nil => intro i h; cases h
  | cons n ns ih =>
    intro i h
    rw [colIdx] at h
    by_cases hn : n = name
    · rw [if_pos hn] at h
      cases h
      simp [hn]
    · rw [if_neg hn] at h
      rcases Option.map_eq_some'.mp h with ⟨j, hj, rfl⟩
      simpa using ih hj

theorem colIdx_of_mem {name : String} :
    ∀ {l : List String}, name ∈ l → ∃ i, colIdx name l = some i := by
  intro l
  induction l with
  | nil => intro h; cases h
  | cons n ns ih =>
    intro h
    by_cases hn : n = name
    · exact ⟨0, by rw [colIdx, if_pos hn]⟩
    · rcases List.mem_cons.mp h with rfl | hmem
      · exact absurd rfl hn
      · rcases ih hmem with ⟨j, hj⟩
        exact ⟨j + 1, by rw [colIdx, if_neg hn, hj]; rfl⟩

theorem colIdx_none_of_not_mem {name : String} :
    ∀ {l : List String}, name ∉ l → colIdx name l = none := by
  intro l
  induction l with
  | nil => intro _; rfl
  | cons n ns ih =>
    intro h
    have hn : n ≠ name := fun e => h (by simp [e])
    have hns : name ∉ ns := fun e => h (List.mem_cons_of_mem _ e)
    rw [colIdx, if_neg hn, ih hns]
    rfl

theorem mapE_length {f : α → Option β} :
    ∀ {xs : List α} {ys : List β}, mapE f xs = some ys → ys.length = xs.length := by
  intro xs
  induction xs with
  | nil => intro ys h; rw [mapE] at h; cases h; rfl
  | cons a l ih =>
    intro ys h
    rw [mapE] at h
    cases hfa : f a with
    | none => rw [hfa] at h; cases h
    | some y0 =>
      rw [hfa] at h
      cases hml : mapE f l with
      | none => rw [hml] at h; cases h
      | some ys0 =>
        rw [hml] at h
        cases h
        simpa using ih hml

theorem mapE_getElem? {f : α → Option β} :
    ∀ {xs : List α} {ys : List β}, mapE f xs = some ys →
      ∀ (i : Nat) (x : α), xs[i]? = some x → ∃ y, f x = some y ∧ ys[i]? = some y := by
  intro xs
  induction xs with
  | nil => intro ys h i x hx; simp at hx
  | cons a l ih =>
    intro ys h i x hx
    rw [mapE] at h
    cases hfa : f a with
    | none => rw [hfa] at h; cases h
    | some y0 =>
      rw [hfa] at h
      cases hml : mapE f l with
      | none => rw [hml] at h; cases h
      | some ys0 =>
        rw [hml] at h
        cases h
        cases i with
        | zero =>
          simp at hx
          subst hx
          exact ⟨y0, hfa, by simp⟩
        | succ n =>
          simp only [List.getElem?_cons_succ] at hx
          rcases ih hml n x hx with ⟨y, hy1, hy2⟩
          refine ⟨y, hy1, ?_⟩
          simpa using hy2

theorem mapE_mem {f : α → Option β} :
    ∀ {xs : List α} {ys : List β}, mapE f xs = some ys →
      ∀ y ∈ ys, ∃ x ∈ xs, f x = some y := by
  intro xs
  induction xs with
  | nil => intro ys h y hy; rw [mapE] at h; cases h; cases hy
  | cons a l ih =>
    intro ys h y hy
    rw [mapE] at h
    cases hfa : f a with
    | none => rw [hfa] at h; cases h
    | some y0 =>
      rw [hfa] at h
      cases hml : mapE f l with
      | none => rw [hml] at h; cases h
      | some ys0 =>
        rw [hml] at h
        cases h
        rcases List.mem_cons.mp hy with rfl | hmem
        · exact ⟨a, by simp, hfa⟩
        · rcases ih hml y hmem with ⟨x, hx1, hx2⟩
          exact ⟨x, by simp [hx1], hx2⟩

theorem mapE_some {f : α → Option β} :
    ∀ {xs : List α}, (∀ x ∈ xs, ∃ y, f x = some y) → ∃ ys, mapE f xs = some ys := by
  intro xs
  induction xs with
  | nil => intro _; exact ⟨[], rfl⟩
  | cons a l ih =>
    intro h
    rcases h a (by simp) with ⟨y0, hy0⟩
    rcases ih (fun x hx => h x (by simp [hx])) with ⟨ys0, hys0⟩
    exact ⟨y0 :: ys0, by rw [mapE, hy0, hys0]⟩

theorem mapE_map {f : α → Option β} {g : β → γ} {k : α → γ}
    (hgk : ∀ x y, f x = some y → g y = k x) :
    ∀ {xs : List α} {ys : List β}, mapE f xs = some ys → ys.map g = xs.map k := by
  intro xs
  induction xs with
  | nil => intro ys h; rw [mapE] at h; cases h; rfl
  | cons a l ih =>
    intro ys h
    rw [mapE] at h
    cases hfa : f a with
    | none => rw [hfa] at h; cases h
    | some y0 =>
      rw [hfa] at h
      cases hml : mapE f l with
      | none => rw [hml] at h; cases h
      | some ys0 =>
        rw [hml] at h
        cases h
        simp only [List.map_cons]
        rw [hgk a y0 hfa, ih hml]

theorem filter_le_succ_lt {t : String} :
    ∀ {cs : List String}, t ∈ cs →
      (cs.filter (fun c => decide (t.length + 1 ≤ c.length))).length <
      (cs.filter (fun c => decide (t.length ≤ c.length))).length := by
  intro cs hcs
  induction cs with
  | nil => cases hcs
  | cons a l ih =>
    rcases List.mem_cons.mp hcs with rfl | hmem
    · have mono : (l.filter (fun c => decide (t.length + 1 ≤ c.length))).length ≤
          (l.filter (fun c => decide (t.length ≤ c.length))).length := by
        refine List.Sublist.length_le (List.monotone_filter_right l ?_)
        intro x hx
        simp only [decide_eq_true_eq] at hx ⊢
        omega
      have e1 : ¬ (t.length + 1 ≤ t.length) := by omega
      simp only [List.filter_cons]
      simp [e1]
      omega
    · have hrec := ih hmem
      simp only [List.filter_cons]
      by_cases hp1 : t.length + 1 ≤ a.length
      · have hp2 : t.length ≤ a.length := by omega
        simp [hp1, hp2]
        omega
      · by_cases hp2 : t.length ≤ a.length
        · simp [hp1, hp2]
          omega
        · simp [hp1, hp2]
          omega

theorem freshTempAux_not_mem {cols : List String} :
    ∀ (fuel : Nat) (t : String),
      (cols.filter (fun c => decide (t.length ≤ c.length))).length < fuel →
      freshTempAux cols fuel t ∉ cols := by
  intro fuel
  induction fuel with
  | zero => intro t h; omega
  | succ n ih =>
    intro t h
    rw [freshTempAux]
    by_cases hmem : t ∈ cols
    · rw [if_pos hmem]
      refine ih (t ++ "_") ?_
      have hone : ("_" : String).length = 1 := rfl
      have hlen : (t ++ "_").length = t.length + 1 := by
        rw [String.length_append, hone]
      have := filter_le_succ_lt hmem
      rw [hlen]
      omega
    · rw [if_neg hmem]
      exact hmem

theorem freshTemp_not_mem (cols : List String) (t : String) : freshTemp cols t ∉ cols := by
  refine freshTempAux_not_mem (cols.length + 1) t ?_
  have := List.length_filter_le (fun c => decide (t.length ≤ c.length)) cols
  omega

theorem mem_insertVal {x a : Cell} :
    ∀ {l : List Cell}, a ∈ insertVal x l ↔ a = x ∨ a ∈ l := by
  intro l
  induction l with
  | nil => simp [insertVal]
  | cons y ys ih =>
    rw [insertVal]
    by_cases hle : Cell.le x y
    · rw [if_pos hle]
      simp
    · rw [if_neg hle]
      simp only [List.mem_cons, ih]
      tauto

theorem mem_sortVals {a : Cell} : ∀ {l : List Cell}, a ∈ sortVals l ↔ a ∈ l := by
  intro l
  induction l with
  | nil => simp [sortVals]
  | cons x xs ih =>
    rw [sortVals, mem_insertVal]
    simp [ih]

theorem mem_uniqueAux {a : Cell} :
    ∀ {l seen : List Cell}, a ∈ uniqueAux l seen → a ∈ l := by
  intro l
  induction l with
  | nil => intro seen h; cases h
  | cons x xs ih =>
    intro seen h
    rw [uniqueAux] at h
    by_cases hx : x ∈ seen
    · rw [if_pos hx] at h
      exact List.mem_cons_of_mem _ (ih h)
    · rw [if_neg hx] at h
      rcases List.mem_cons.mp h with rfl | hmem
      · simp
      · exact List.mem_cons_of_mem _ (ih hmem)

theorem mem_uniqueVals {a : Cell} {l : List Cell} : a ∈ uniqueVals l → a ∈ l :=
  mem_uniqueAux

theorem obind_eq_some {x : Option α} {f : α → Option β} {b : β} :
    (x >>= f) = some b ↔ ∃ a, x = some a ∧ f a = some b := by
  cases x <;> simp

theorem some_bind_eq (a : α) (f : α → Option β) : ((some a >>= f : Option β)) = f a := rfl

/-! Claim theorems. -/

/-- C1 counterexample: at a NaN p-value, print_ttest_results takes the
else branch (significant = false), i.e. it emits the default
No-significant-difference (not-significant) verdict line, contradicting
the claim that a NaN p-value is never converted into that default
verdict. -/
theorem print_ttest_nan_counterexample :
    (print_ttest_results (Cell.num 1) "Temperature" PVal.nan (1 / 20)).significant = false :=
  rfl

/-- C1 (amended): for every station, measurement and threshold, a NaN
p-value makes print_ttest_results emit the else-branch report line: the
verdict is the default No-significant-difference classification, because
NaN <= alpha evaluates to false in Python; the NaN itself still appears
inside the printed line (p_shown renders as nan), which is the only place
a caller can detect the undefined test. -/
theorem print_ttest_nan_amended (station_id : Cell) (measurement : String) (alpha : ℚ) :
    print_ttest_results station_id measurement PVal.nan alpha =
      { station := station_id, measurement := measurement,
        significant := false, p_shown := PVal.nan } :=
  rfl

/-- C9 counterexample: with an empty columns_to_rename mapping and
concrete input tables, process fails with the IndexError raised inside
rename_columns, but the recorded trace shows the data-ingestion step
already completed before the failure - contradicting the claim that the
configuration error is signalled before any data ingestion. -/
theorem process_empty_rename_counterexample :
    processTrace [] [] exDF wmapEx =
      ([Step.ingest], Except.error "IndexError: list index out of range") :=
  rfl

/-- C9 (amended): for every values_to_rename configuration and every pair
of input tables, an empty columns_to_rename mapping makes process fail
fatally with the IndexError raised by rename_columns; no normalization
step after ingestion runs, but the data-ingestion step itself has already
taken place when the error is raised (process ingests first, then
renames). -/
theorem process_empty_rename_amended (values_to_rename : List (String × String))
    (raw wmap : DFrame) :
    processTrace [] values_to_rename raw wmap =
      ([Step.ingest], Except.error "IndexError: list index out of range") :=
  rfl

/-- C4: extract_measurement tries the patterns in their declaration order.
If no pattern matches the message, the result is (None, None).  Otherwise
the earliest declared matching pattern wins - regardless of what later
patterns would do, of match position, or of match length - and the result
is that pattern's kind paired with the first non-null captured group
parsed as a floating-point number. -/
theorem extract_measurement_spec (pyfloat : String → Option ℚ) (message : String) :
    (∀ patterns : List (String × Pattern),
      (∀ kp ∈ patterns, kp.2 message = none) →
      extract_measurement pyfloat patterns message = some (none, none)) ∧
    (∀ (ps1 : List (String × Pattern)) (key : String) (pat : Pattern)
        (ps2 : List (String × Pattern)) (groups : List (Option String))
        (s : String) (q : ℚ),
      (∀ kp ∈ ps1, kp.2 message = none) →
      pat message = some groups →
      firstSome groups = some s →
      pyfloat s = some q →
      extract_measurement pyfloat (ps1 ++ (key, pat) :: ps2) message =
        some (some key, some q)) := by
  constructor
  · intro patterns h
    induction patterns with
    | nil => rfl
    | cons kp rest ih =>
      rcases kp with ⟨k, p⟩
      have hk : p message = none := h (k, p) (by simp)
      rw [extract_measurement, hk]
      exact ih (fun x hx => h x (by simp [hx]))
  · intro ps1 key pat ps2 groups s q h1 h2 h3 h4
    induction ps1 with
    | nil =>
      simp only [List.nil_append, extract_measurement, h2, h3, h4, Option.map_some']
    | cons kp rest ih =>
      rcases kp with ⟨k, p⟩
      have hk : p message = none := h1 (k, p) (by simp)
      simp only [List.cons_append]
      rw [extract_measurement, hk]
      exact ih (fun x hx => h1 x (by simp [hx]))

/-- C4 witness: both conjuncts at concrete inputs - no pattern matching a
message yields (None, None); the temperature pattern matching the cold
message yields the Temperature kind with 5.28 parsed from the first
captured group. -/
theorem extract_measurement_witness :
    extract_measurement pfEx [] "Clear skies" = some (none, none) ∧
    extract_measurement pfEx [("Temperature", patEx)] "Cold today, 5.28C" =
      some (some "Temperature", some ((132 : ℚ) / 25)) := by
  constructor
  · exact (extract_measurement_spec pfEx "Clear skies").1 [] (by intro kp h; cases h)
  · exact (extract_measurement_spec pfEx "Cold today, 5.28C").2 [] "Temperature" patEx []
      [some "5.28", some ".28"] "5.28" ((132 : ℚ) / 25)
      (by intro kp h; cases h) rfl rfl rfl

/-- C2: hypothesis_results walks the stations in the ascending sorted
order of the unique Weather_station_ID values of the weather table and,
within each station, walks the module-level canonical list
measurements_to_compare - not the caller-supplied
list_measurements_to_compare.  Consequently the whole run is identical for
any two values of that argument (first conjunct), and the emitted
(station, kind) sequence is exactly sorted-unique stations times the
canonical kind list (second conjunct). -/
theorem hypothesis_results_order_spec (ttest : List Cell → List Cell → PVal)
    (field_df weather_df : DFrame) (l1 l2 : List String) (alpha : ℚ) :
    hypothesis_results ttest field_df weather_df l1 alpha =
      hypothesis_results ttest field_df weather_df l2 alpha ∧
    (∀ (lines : List TTestLine) (ks : List Cell),
      weather_df.col "Weather_station_ID" = some ks →
      hypothesis_results ttest field_df weather_df l1 alpha = some lines →
      lines.map (fun x => (x.station, x.measurement)) =
        (sortVals (uniqueVals ks)).flatMap
          (fun s => measurements_to_compare.map (fun m => (s, m)))) := by
  constructor
  · rfl
  · intro lines ks hks hres
    rcases Option.map_eq_some'.mp hks with ⟨si, hsi, hks2⟩
    rw [hypothesis_results, hsi, some_bind_eq] at hres
    rcases obind_eq_some.mp hres with ⟨blocks, hblocks, hlines⟩
    cases hlines
    have inner_pair : ∀ (s : Cell) (block : List TTestLine),
        mapE (fun measurement => do
          let field_values ← filter_field_data field_df s measurement
          let weather_values ← filter_weather_data weather_df s measurement
          some (print_ttest_results s measurement
            (ttest field_values weather_values) alpha)) measurements_to_compare =
          some block →
        block.map (fun x => (x.station, x.measurement)) =
          measurements_to_compare.map (fun m => (s, m)) := by
      intro s block hb
      refine mapE_map ?_ hb
      intro m line hline
      rcases obind_eq_some.mp hline with ⟨fv, hfv, hline2⟩
      rcases obind_eq_some.mp hline2 with ⟨wv, hwv, hline3⟩
      cases hline3
      rfl
    have outer : blocks.map (List.map (fun x => (x.station, x.measurement))) =
        (sortVals (uniqueVals
          (weather_df.rows.map (fun r => r.getD si Cell.null)))).map
          (fun s => measurements_to_compare.map (fun m => (s, m))) :=
      mapE_map inner_pair hblocks
    rw [List.map_flatten, outer, hks2]
    rfl

/-- C2 witness: a concrete one-station weather table - swapping the
caller-supplied kind list for another changes nothing, and the emitted
pair sequence is station 1 crossed with the canonical kind order. -/
theorem hypothesis_results_order_witness :
    hypothesis_results ttestEx fieldEx weatherEx ["Rainfall"] (1 / 20) =
      hypothesis_results ttestEx fieldEx weatherEx [] (1 / 20) ∧
    [TTestLine.mk (Cell.num 1) "Temperature" false PVal.nan,
     TTestLine.mk (Cell.num 1) "Rainfall" false PVal.nan,
     TTestLine.mk (Cell.num 1) "Pollution_level" false PVal.nan].map
        (fun x => (x.station, x.measurement)) =
      (sortVals (uniqueVals [Cell.num 1])).flatMap
        (fun s => measurements_to_compare.map (fun m => (s, m))) := by
  refine ⟨(hypothesis_results_order_spec ttestEx fieldEx weatherEx ["Rainfall"] []
    (1 / 20)).1, ?_⟩
  exact (hypothesis_results_order_spec ttestEx fieldEx weatherEx ["Rainfall"] []
    (1 / 20)).2
    [TTestLine.mk (Cell.num 1) "Temperature" false PVal.nan,
     TTestLine.mk (Cell.num 1) "Rainfall" false PVal.nan,
     TTestLine.mk (Cell.num 1) "Pollution_level" false PVal.nan]
    [Cell.num 1] rfl rfl

/-- C10: every verdict line emitted by hypothesis_results carries a
station drawn from the Weather_station_ID column of the parsed weather
table; a station present only in the fused field table therefore produces
no test and no verdict line. -/
theorem hypothesis_results_stations_spec (ttest : List Cell → List Cell → PVal)
    (field_df weather_df : DFrame) (lst : List String) (alpha : ℚ)
    (lines : List TTestLine) (ks : List Cell)
    (hks : weather_df.col "Weather_station_ID" = some ks)
    (hres : hypothesis_results ttest field_df weather_df lst alpha = some lines) :
    ∀ x ∈ lines, x.station ∈ ks := by
  intro x hx
  rcases Option.map_eq_some'.mp hks with ⟨si, hsi, hks2⟩
  rw [hypothesis_results, hsi, some_bind_eq] at hres
  rcases obind_eq_some.mp hres with ⟨blocks, hblocks, hlines⟩
  cases hlines
  rcases List.mem_flatten.mp hx with ⟨block, hbmem, hxb⟩
  rcases mapE_mem hblocks block hbmem with ⟨s, hsmem, hsF⟩
  rcases mapE_mem hsF x hxb with ⟨m, hmmem, hmf⟩
  rcases obind_eq_some.mp hmf with ⟨fv, hfv, h2⟩
  rcases obind_eq_some.mp h2 with ⟨wv, hwv, h3⟩
  cases h3
  have hsin : s ∈ weather_df.rows.map (fun r => r.getD si Cell.null) :=
    mem_uniqueVals (mem_sortVals.mp hsmem)
  rw [← hks2]
  exact hsin

/-- C10 witness: in the concrete one-station run, the station of the first
emitted line is a Weather_station_ID value of the weather table. -/
theorem hypothesis_results_stations_witness :
    (TTestLine.mk (Cell.num 1) "Temperature" false PVal.nan).station ∈ [Cell.num 1] :=
  hypothesis_results_stations_spec ttestEx fieldEx weatherEx [] (1 / 20)
    [TTestLine.mk (Cell.num 1) "Temperature" false PVal.nan,
     TTestLine.mk (Cell.num 1) "Rainfall" false PVal.nan,
     TTestLine.mk (Cell.num 1) "Pollution_level" false PVal.nan]
    [Cell.num 1] rfl rfl
    (TTestLine.mk (Cell.num 1) "Temperature" false PVal.nan) (by decide)

theorem swapName_snd (a b : String) : swapName a b b = a := by
  unfold swapName
  by_cases hba : b = a
  · rw [if_pos hba]
    exact hba
  · rw [if_neg hba, if_pos rfl]

theorem swapName_involutive (a b n : String) : swapName a b (swapName a b n) = n := by
  unfold swapName
  by_cases hna : n = a
  · rw [if_pos hna]
    by_cases hba : b = a
    · rw [if_pos hba]
      exact hba.trans hna.symm
    · rw [if_neg hba, if_pos rfl]
      exact hna.symm
  · rw [if_neg hna]
    by_cases hnb : n = b
    · rw [if_pos hnb, if_pos rfl]
      exact hnb.symm
    · rw [if_neg hnb, if_neg hna, if_neg hnb]

theorem swap_compose (a b temp n : String) (hat : a ≠ temp) (hnt : n ≠ temp) :
    (if (if n = b then a else if n = a then temp else n) = temp then b
     else if n = b then a else if n = a then temp else n) = swapName a b n := by
  unfold swapName
  by_cases hnb : n = b <;> by_cases hna : n = a <;> simp_all

theorem rename_columns_eq (df : DFrame) (a b : String) (rest : List (String × String))
    (ha : a ∈ df.header) :
    rename_columns ((a, b) :: rest) df =
      Except.ok { header := df.header.map (swapName a b), rows := df.rows } := by
  simp only [rename_columns]
  congr 1
  congr 1
  rw [List.map_map]
  refine List.map_congr_left ?_
  intro n hn
  have hnt : n ≠ freshTemp df.header "__temp_name_for_swap__" := by
    intro e
    exact freshTemp_not_mem df.header "__temp_name_for_swap__" (e ▸ hn)
  have hat : a ≠ freshTemp df.header "__temp_name_for_swap__" := by
    intro e
    exact freshTemp_not_mem df.header "__temp_name_for_swap__" (e ▸ ha)
  simp only [Function.comp_apply]
  exact swap_compose a b _ n hat hnt

/-- C3: with a mapping whose first pair is (a, b), rename_columns
atomically exchanges the two column names in the header - a becomes b and
b becomes a - while the row data is untouched, so each column's data
follows its new name and no column is overwritten, even when both names
are present side by side.  The temporary placeholder is fresh (theorem
freshTemp_not_mem), and any further pairs of the mapping (rest) are
ignored: only the first pair is used. -/
theorem rename_columns_swap_spec (df : DFrame) (a b : String)
    (rest : List (String × String)) (ha : a ∈ df.header) (hb : b ∈ df.header) :
    rename_columns ((a, b) :: rest) df =
      Except.ok { header := df.header.map (swapName a b), rows := df.rows } :=
  rename_columns_eq df a b rest ha

/-- C3 witness: the spec scenario - renaming with the single pair
(Annual_yield, Crop_type) over header [Field_ID, Annual_yield, Crop_type]
yields header [Field_ID, Crop_type, Annual_yield] with the rows unchanged. -/
theorem rename_columns_swap_witness :
    rename_columns [("Annual_yield", "Crop_type")] exDF =
      Except.ok { header := exDF.header.map (swapName "Annual_yield" "Crop_type"),
                  rows := exDF.rows } ∧
    exDF.header.map (swapName "Annual_yield" "Crop_type") =
      ["Field_ID", "Crop_type", "Annual_yield"] :=
  ⟨rename_columns_swap_spec exDF "Annual_yield" "Crop_type" [] (by decide) (by decide),
   rfl⟩

/-- C8: applying the column-identity swap twice with the same single-pair
mapping restores the original table: for every table containing both named
columns, swap composed with swap is the identity on the column names and
on the data. -/
theorem rename_columns_involutive_spec (df : DFrame) (a b : String)
    (ha : a ∈ df.header) (hb : b ∈ df.header) :
    ∃ mid, rename_columns [(a, b)] df = Except.ok mid ∧
      rename_columns [(a, b)] mid = Except.ok df := by
  obtain ⟨hdr, rws⟩ := df
  refine ⟨{ header := hdr.map (swapName a b), rows := rws },
    rename_columns_eq ⟨hdr, rws⟩ a b [] ha, ?_⟩
  have hamem : a ∈ hdr.map (swapName a b) :=
    List.mem_map.mpr ⟨b, hb, swapName_snd a b⟩
  rw [rename_columns_eq ⟨hdr.map (swapName a b), rws⟩ a b [] hamem]
  congr 1
  congr 1
  rw [List.map_map]
  calc hdr.map (swapName a b ∘ swapName a b) = hdr.map id := by
        refine List.map_congr_left ?_
        intro n _
        exact swapName_involutive a b n
    _ = hdr := List.map_id hdr

/-- C8 witness: the double swap at the concrete spec table. -/
theorem rename_columns_involutive_witness :
    ∃ mid, rename_columns [("Annual_yield", "Crop_type")] exDF = Except.ok mid ∧
      rename_columns [("Annual_yield", "Crop_type")] mid = Except.ok exDF :=
  rename_columns_involutive_spec exDF "Annual_yield" "Crop_type" (by decide) (by decide)

theorem mem_of_getElem?_eq {l : List α} {i : Nat} {a : α} (h : l[i]? = some a) : a ∈ l := by
  rcases List.getElem?_eq_some_iff.mp h with ⟨hlt, rfl⟩
  exact List.getElem_mem hlt

theorem getD_set_self {l : List α} {i : Nat} {v d : α} (h : i < l.length) :
    (l.set i v).getD i d = v := by
  rw [List.getD_eq_getElem?_getD, List.getElem?_set_eq_of_lt v h]
  rfl

theorem getD_set_other {l : List α} {i j : Nat} {v d : α} (h : i ≠ j) :
    (l.set i v).getD j d = l.getD j d := by
  rw [List.getD_eq_getElem?_getD, List.getElem?_set_ne h, ← List.getD_eq_getElem?_getD]

theorem mapE_eq_map {f : α → Option β} {F : α → β} :
    ∀ {xs : List α} {ys : List β}, mapE f xs = some ys →
      (∀ x ∈ xs, f x = some (F x)) → ys = xs.map F := by
  intro xs
  induction xs with
  | nil => intro ys h _; rw [mapE] at h; cases h; rfl
  | cons a l ih =>
    intro ys h hall
    rw [mapE] at h
    cases hfa : f a with
    | none => rw [hfa] at h; cases h
    | some y0 =>
      rw [hfa] at h
      cases hml : mapE f l with
      | none => rw [hml] at h; cases h
      | some ys0 =>
        rw [hml] at h
        cases h
        have hFa : y0 = F a := by
          have := hall a (by simp)
          rw [hfa] at this
          exact (Option.some.injEq _ _).mp this
        rw [List.map_cons, ← hFa, ih hml (fun x hx => hall x (by simp [hx]))]

theorem mapColE_eq {df : DFrame} {name : String} {f : Cell → Option Cell} {i : Nat}
    {rows1 : List (List Cell)}
    (hi : colIdx name df.header = some i)
    (hrows1 : mapE (fun r => (r[i]?).bind (fun v => (f v).map (fun w => r.set i w)))
        df.rows = some rows1) :
    df.mapColE name f = some { header := df.header, rows := rows1 } := by
  rw [DFrame.mapColE, hi, some_bind_eq, hrows1, some_bind_eq]

theorem getElem?_eq_some_getD {l : List α} {i : Nat} {d : α} (h : i < l.length) :
    l[i]? = some (l.getD i d) := by
  rw [List.getD_eq_getElem?_getD, List.getElem?_eq_getElem h]
  rfl

/-- C6: apply_corrections with the default designated columns succeeds on
any table whose Elevation cells are numeric, whatever the Crop_type values
are (unknown values never cause a failure); afterwards every row's
Elevation value is the absolute value of its prior value - hence
non-negative - and the Crop_type column is the prior column mapped through
correctVal, which yields the lookup image of a value in the lookup's
domain and the unchanged value otherwise (last two conjuncts). -/
theorem apply_corrections_spec (values_to_rename : List (String × String)) (df : DFrame)
    (es cs : List Cell)
    (hrect : ∀ r ∈ df.rows, r.length = df.header.length)
    (hE : df.col "Elevation" = some es)
    (hC : df.col "Crop_type" = some cs)
    (hnum : ∀ v ∈ es, ∃ q : ℚ, v = Cell.num q) :
    (∃ out, apply_corrections values_to_rename "Crop_type" "Elevation" df = some out ∧
      out.header = df.header ∧
      out.rows.length = df.rows.length ∧
      out.col "Elevation" = some (es.map absCell) ∧
      (∀ v ∈ es.map absCell, ∃ q : ℚ, v = Cell.num q ∧ 0 ≤ q) ∧
      out.col "Crop_type" = some (cs.map (correctVal values_to_rename))) ∧
    (∀ s t : String, values_to_rename.lookup s = some t →
      correctVal values_to_rename (Cell.str s) = Cell.str t) ∧
    (∀ s : String, values_to_rename.lookup s = none →
      correctVal values_to_rename (Cell.str s) = Cell.str s) := by
  refine ⟨?_, fun s t h => by simp [correctVal, h], fun s h => by simp [correctVal, h]⟩
  rcases Option.map_eq_some'.mp hE with ⟨iE, hiE, hes⟩
  rcases Option.map_eq_some'.mp hC with ⟨iC, hiC, hcs⟩
  have hne : iE ≠ iC := by
    intro e
    have h1 := colIdx_get hiE
    have h2 := colIdx_get hiC
    rw [e, h2] at h1
    simp at h1
  have hiElt := colIdx_lt_length hiE
  have hiClt := colIdx_lt_length hiC
  have hf1 : ∀ r ∈ df.rows,
      ((r[iE]?).bind (fun v => (Cell.vabs v).map (fun w => r.set iE w))) =
        some (r.set iE (absCell (r.getD iE Cell.null))) := by
    intro r hr
    have hlt : iE < r.length := by
      have := hrect r hr
      omega
    rcases hnum (r.getD iE Cell.null) (hes ▸ List.mem_map_of_mem _ hr) with ⟨q, hq⟩
    rw [getElem?_eq_some_getD hlt, hq]
    rfl
  rcases mapE_some (fun r hr => ⟨_, hf1 r hr⟩) with ⟨rows1, hrows1⟩
  have hrows1eq : rows1 =
      df.rows.map (fun r => r.set iE (absCell (r.getD iE Cell.null))) :=
    mapE_eq_map hrows1 hf1
  have hmc1 : df.mapColE "Elevation" Cell.vabs = some ⟨df.header, rows1⟩ :=
    mapColE_eq hiE hrows1
  have hf2 : ∀ r1 ∈ rows1,
      ((r1[iC]?).bind (fun v => (some (correctVal values_to_rename v)).map
        (fun w => r1.set iC w))) =
      some (r1.set iC (correctVal values_to_rename (r1.getD iC Cell.null))) := by
    intro r1 hr1
    rw [hrows1eq] at hr1
    rcases List.mem_map.mp hr1 with ⟨r, hr, rfl⟩
    have hlt : iC < (r.set iE (absCell (r.getD iE Cell.null))).length := by
      rw [List.length_set]
      have := hrect r hr
      omega
    rw [getElem?_eq_some_getD hlt]
    rfl
  rcases mapE_some (fun r1 hr1 => ⟨_, hf2 r1 hr1⟩) with ⟨rows2, hrows2⟩
  have hrows2eq : rows2 = rows1.map
      (fun r1 => r1.set iC (correctVal values_to_rename (r1.getD iC Cell.null))) :=
    mapE_eq_map hrows2 hf2
  have hmc2 : DFrame.mapColE ⟨df.header, rows1⟩ "Crop_type"
      (fun v => some (correctVal values_to_rename v)) = some ⟨df.header, rows2⟩ :=
    mapColE_eq hiC hrows2
  have happ : apply_corrections values_to_rename "Crop_type" "Elevation" df =
      some ⟨df.header, rows2⟩ := by
    rw [apply_corrections, hmc1, some_bind_eq, hmc2]
  have hcolE : rows2.map (fun r => r.getD iE Cell.null) = es.map absCell := by
    rw [hrows2eq, hrows1eq, ← hes, List.map_map, List.map_map, List.map_map]
    refine List.map_congr_left ?_
    intro r hr
    simp only [Function.comp_apply]
    rw [getD_set_other (Ne.symm hne)]
    rw [getD_set_self (by have := hrect r hr; omega)]
  have hcolC : rows2.map (fun r => r.getD iC Cell.null) =
      cs.map (correctVal values_to_rename) := by
    rw [hrows2eq, hrows1eq, ← hcs, List.map_map, List.map_map, List.map_map]
    refine List.map_congr_left ?_
    intro r hr
    simp only [Function.comp_apply]
    rw [getD_set_self (by rw [List.length_set]; have := hrect r hr; omega)]
    rw [getD_set_other hne]
  refine ⟨⟨df.header, rows2⟩, happ, rfl, ?_, ?_, ?_, ?_⟩
  · rw [hrows2eq, hrows1eq]
    simp
  · rw [DFrame.col]
    simp only [hiE, Option.map_some']
    exact congrArg some hcolE
  · intro v hv
    rcases List.mem_map.mp hv with ⟨u, hu, rfl⟩
    rcases hnum u hu with ⟨q, rfl⟩
    exact ⟨|q|, rfl, abs_nonneg q⟩
  · rw [DFrame.col]
    simp only [hiC, Option.map_some']
    exact congrArg some hcolC

/-- C6 witness: concrete run with the spec correction table - the negative
elevation becomes positive and the typo wheatn is corrected while maize
passes through unchanged. -/
theorem apply_corrections_witness :
    (∃ out, apply_corrections [("wheatn", "wheat")] "Crop_type" "Elevation"
        ⟨["Crop_type", "Elevation"],
         [[Cell.str "wheatn", Cell.num (-5)], [Cell.str "maize", Cell.num 3]]⟩ =
          some out ∧
      out.header = ["Crop_type", "Elevation"] ∧
      out.rows.length =
        ([[Cell.str "wheatn", Cell.num (-5)],
          [Cell.str "maize", Cell.num 3]] : List (List Cell)).length ∧
      out.col "Elevation" = some ([Cell.num (-5), Cell.num 3].map absCell) ∧
      (∀ v ∈ [Cell.num (-5), Cell.num 3].map absCell,
        ∃ q : ℚ, v = Cell.num q ∧ 0 ≤ q) ∧
      out.col "Crop_type" =
        some ([Cell.str "wheatn", Cell.str "maize"].map
          (correctVal [("wheatn", "wheat")]))) ∧
    (∀ s t : String, ([("wheatn", "wheat")] : List (String × String)).lookup s = some t →
      correctVal [("wheatn", "wheat")] (Cell.str s) = Cell.str t) ∧
    (∀ s : String, ([("wheatn", "wheat")] : List (String × String)).lookup s = none →
      correctVal [("wheatn", "wheat")] (Cell.str s) = Cell.str s) :=
  apply_corrections_spec [("wheatn", "wheat")]
    ⟨["Crop_type", "Elevation"],
     [[Cell.str "wheatn", Cell.num (-5)], [Cell.str "maize", Cell.num 3]]⟩
    [Cell.num (-5), Cell.num 3] [Cell.str "wheatn", Cell.str "maize"]
    (by decide) rfl rfl
    (by
      intro v hv
      simp only [List.mem_cons, List.not_mem_nil, or_false] at hv
      rcases hv with rfl | rfl
      · exact ⟨-5, rfl⟩
      · exact ⟨3, rfl⟩)

theorem getElem?_zipWith_eq {f : α → β → γ} :
    ∀ {as : List α} {bs : List β} {i : Nat} {a : α} {b : β},
      as[i]? = some a → bs[i]? = some b → (List.zipWith f as bs)[i]? = some (f a b) := by
  intro as
  induction as with
  | nil => intro bs i a b ha; simp at ha
  | cons x xs ih =>
    intro bs i a b ha hb
    cases bs with
    | nil => simp at hb
    | cons y ys =>
      cases i with
      | zero =>
        simp at ha hb
        subst ha
        subst hb
        simp
      | succ n =>
        simp only [List.getElem?_cons_succ] at ha hb
        simpa using ih ha hb

theorem setColVals_append_two {wdf : DFrame} {meas vals : List Cell}
    (hM : "Measurement" ∉ wdf.header) (hV : "Value" ∉ wdf.header)
    (hlm : meas.length = wdf.rows.length) (hlv : vals.length = wdf.rows.length) :
    ((wdf.setColVals "Measurement" meas).setColVals "Value" vals).header =
      wdf.header ++ ["Measurement", "Value"] ∧
    ((wdf.setColVals "Measurement" meas).setColVals "Value" vals).rows.length =
      wdf.rows.length ∧
    (∀ (i : Nat) (row : List Cell) (m v : Cell), wdf.rows[i]? = some row →
      meas[i]? = some m → vals[i]? = some v →
      ((wdf.setColVals "Measurement" meas).setColVals "Value" vals).rows[i]? =
        some ((row ++ [m]) ++ [v])) := by
  have hcm : colIdx "Measurement" wdf.header = none := colIdx_none_of_not_mem hM
  have hcv : colIdx "Value" (wdf.header ++ ["Measurement"]) = none := by
    refine colIdx_none_of_not_mem ?_
    intro hmem
    rcases List.mem_append.mp hmem with h | h
    · exact hV h
    · simp at h
  have h1 : wdf.setColVals "Measurement" meas =
      ⟨wdf.header ++ ["Measurement"], List.zipWith (fun r v => r ++ [v]) wdf.rows meas⟩ := by
    rw [DFrame.setColVals, hcm]
  have h2 : (DFrame.mk (wdf.header ++ ["Measurement"])
        (List.zipWith (fun r v => r ++ [v]) wdf.rows meas)).setColVals "Value" vals =
      ⟨(wdf.header ++ ["Measurement"]) ++ ["Value"],
       List.zipWith (fun r v => r ++ [v])
         (List.zipWith (fun r v => r ++ [v]) wdf.rows meas) vals⟩ := by
    rw [DFrame.setColVals]
    simp only [hcv]
  rw [h1, h2]
  refine ⟨by simp, ?_, ?_⟩
  · simp only [List.length_zipWith]
    omega
  · intro i row m v hrow hm hv
    have hz : (List.zipWith (fun r v => r ++ [v]) wdf.rows meas)[i]? = some (row ++ [m]) :=
      getElem?_zipWith_eq hrow hm
    exact getElem?_zipWith_eq hz hv

/-- C7 counterexample: on the weather table with zero rows,
process_messages does not return a table at all - the tuple unpacking of
zip() over the empty result raises ValueError in the source, modelled by
none - contradicting the claim that for every input table the output has
exactly as many rows as the input. -/
theorem process_messages_empty_counterexample :
    process_messages pfEx [("Temperature", patEx)] emptyWdf = none := rfl

/-- C7 (amended): whenever process_messages returns a table (which it does
exactly when the Message column exists, every message cell is a string,
every extraction avoids the undefined all-null-groups case, and the table
has at least one row - the zero-row table instead raises ValueError), the
output preserves the row count and the original row order one to one,
extending each row in place with the two derived cells Measurement and
Value (possibly null); no row is ever dropped. -/
theorem process_messages_spec (pyfloat : String → Option ℚ)
    (patterns : List (String × Pattern)) (wdf out : DFrame)
    (hM : "Measurement" ∉ wdf.header) (hV : "Value" ∉ wdf.header)
    (hres : process_messages pyfloat patterns wdf = some out) :
    out.header = wdf.header ++ ["Measurement", "Value"] ∧
    out.rows.length = wdf.rows.length ∧
    (∀ (i : Nat) (row : List Cell), wdf.rows[i]? = some row →
      ∃ m v : Cell, out.rows[i]? = some ((row ++ [m]) ++ [v])) := by
  rw [process_messages] at hres
  rcases obind_eq_some.mp hres with ⟨mi, hmi, hres2⟩
  rcases obind_eq_some.mp hres2 with ⟨results, hresults, hres3⟩
  cases results with
  | nil => cases hres3
  | cons r0 rs =>
    cases hres3
    have hlen : (r0 :: rs).length = wdf.rows.length := mapE_length hresults
    have hlm : (((r0 :: rs).map optsToCells).map Prod.fst).length = wdf.rows.length := by
      simpa using hlen
    have hlv : (((r0 :: rs).map optsToCells).map Prod.snd).length = wdf.rows.length := by
      simpa using hlen
    rcases setColVals_append_two hM hV hlm hlv with ⟨hh, hl, hrow⟩
    refine ⟨hh, hl, ?_⟩
    intro i row hirow
    rcases mapE_getElem? hresults i row hirow with ⟨res, hres4, hres5⟩
    refine ⟨(optsToCells res).1, (optsToCells res).2, ?_⟩
    refine hrow i row (optsToCells res).1 (optsToCells res).2 hirow ?_ ?_
    · rw [List.getElem?_map, List.getElem?_map, hres5]
      rfl
    · rw [List.getElem?_map, List.getElem?_map, hres5]
      rfl

/-- C7 witness: the one-row weather table - the output extends the single
row in place with the Temperature kind and the parsed value. -/
theorem process_messages_witness :
    (DFrame.mk ["Weather_station_ID", "Message", "Measurement", "Value"]
        [[Cell.num 1, Cell.str "Cold today, 5.28C", Cell.str "Temperature",
          Cell.num ((132 : ℚ) / 25)]]).header =
      wdfEx.header ++ ["Measurement", "Value"] ∧
    (DFrame.mk ["Weather_station_ID", "Message", "Measurement", "Value"]
        [[Cell.num 1, Cell.str "Cold today, 5.28C", Cell.str "Temperature",
          Cell.num ((132 : ℚ) / 25)]]).rows.length = wdfEx.rows.length ∧
    (∀ (i : Nat) (row : List Cell), wdfEx.rows[i]? = some row →
      ∃ m v : Cell,
        (DFrame.mk ["Weather_station_ID", "Message", "Measurement", "Value"]
          [[Cell.num 1, Cell.str "Cold today, 5.28C", Cell.str "Temperature",
            Cell.num ((132 : ℚ) / 25)]]).rows[i]? = some ((row ++ [m]) ++ [v])) :=
  process_messages_spec pfEx [("Temperature", patEx)] wdfEx
    (DFrame.mk ["Weather_station_ID", "Message", "Measurement", "Value"]
      [[Cell.num 1, Cell.str "Cold today, 5.28C", Cell.str "Temperature",
        Cell.num ((132 : ℚ) / 25)]])
    (by decide) (by decide) rfl

theorem some_obind (a : α) (f : α → Option β) : (Option.some a).bind f = f a := rfl

theorem flatMap_singleton_map {g : α → List β} {dflt : β} :
    ∀ {l : List α}, (∀ x ∈ l, ∃ y, g x = [y]) →
      l.flatMap g = l.map (fun x => (g x).headD dflt) := by
  intro l
  induction l with
  | nil => intro _; rfl
  | cons a as ih =>
    intro h
    rcases h a (by simp) with ⟨y, hy⟩
    rw [List.flatMap_cons, List.map_cons, hy, ih (fun x hx => h x (by simp [hx]))]
    rfl

theorem filter_length_le_one_of_nodup_map {rows : List (List Cell)} {ri : Nat} {k : Cell}
    (hnd : (rows.map (fun r => r.getD ri Cell.null)).Nodup) :
    (rows.filter (fun r => decide (r.getD ri Cell.null = k))).length ≤ 1 := by
  induction rows with
  | nil => simp
  | cons r rs ih =>
    rw [List.map_cons, List.nodup_cons] at hnd
    rcases hnd with ⟨hhead, htail⟩
    by_cases hk : r.getD ri Cell.null = k
    · rw [List.filter_cons_of_pos (by simpa using hk)]
      have hnil : rs.filter (fun r2 => decide (r2.getD ri Cell.null = k)) = [] := by
        rw [List.filter_eq_nil_iff]
        intro r2 hr2
        simp only [decide_eq_true_eq]
        intro he
        refine hhead ?_
        rw [hk, ← he]
        exact List.mem_map_of_mem _ hr2
      rw [hnil]
      simp
    · rw [List.filter_cons_of_neg (by simpa using hk)]
      exact ih htail

theorem mem_eraseIdx_of_getElem?_ne {a : α} :
    ∀ {l : List α} {i : Nat} {b : α}, a ∈ l → l[i]? = some b → a ≠ b →
      a ∈ l.eraseIdx i := by
  intro l
  induction l with
  | nil => intro i b h; cases h
  | cons x xs ih =>
    intro i b hmem hib hne
    cases i with
    | zero =>
      simp at hib
      subst hib
      rcases List.mem_cons.mp hmem with rfl | h
      · exact absurd rfl hne
      · simpa [List.eraseIdx] using h
    | succ n =>
      simp only [List.getElem?_cons_succ] at hib
      rcases List.mem_cons.mp hmem with rfl | h
      · simp [List.eraseIdx]
      · simpa [List.eraseIdx] using Or.inr (ih h hib hne)

theorem dropCells_append {hdr1 hdr2 : List String} {name : String} {r1 r2 : List Cell}
    (h : hdr1.length = r1.length) :
    dropCells (hdr1 ++ hdr2) name (r1 ++ r2) =
      dropCells hdr1 name r1 ++ dropCells hdr2 name r2 := by
  rw [dropCells, dropCells, dropCells, List.zip_append h, List.filter_append,
    List.map_append]

theorem dropCells_not_mem {hdr : List String} {name : String} {r : List Cell}
    (hn : name ∉ hdr) (hlen : hdr.length = r.length) :
    dropCells hdr name r = r := by
  rw [dropCells]
  have hfil : (hdr.zip r).filter (fun p => decide (p.1 ≠ name)) = hdr.zip r := by
    rw [List.filter_eq_self]
    intro p hp
    simp only [decide_eq_true_eq]
    intro e
    exact hn (e ▸ (List.of_mem_zip hp).1)
  rw [hfil]
  exact List.map_snd_zip hdr r (le_of_eq hlen.symm)

theorem dropCells_replicate {name : String} {v : Cell} :
    ∀ {hdr : List String},
      dropCells hdr name (List.replicate hdr.length v) =
        List.replicate ((hdr.filter (fun n => decide (n ≠ name))).length) v := by
  intro hdr
  induction hdr with
  | nil => rfl
  | cons n ns ih =>
    rw [List.length_cons, List.replicate_succ]
    by_cases hn : n = name
    · have h1 : dropCells (n :: ns) name (v :: List.replicate ns.length v) =
          dropCells ns name (List.replicate ns.length v) := by
        simp [dropCells, hn]
      have h2 : List.filter (fun m => decide (m ≠ name)) (n :: ns) =
          List.filter (fun m => decide (m ≠ name)) ns := by
        simp [hn]
      rw [h1, h2, ih]
    · have h1 : dropCells (n :: ns) name (v :: List.replicate ns.length v) =
          v :: dropCells ns name (List.replicate ns.length v) := by
        simp [dropCells, hn]
      have h2 : List.filter (fun m => decide (m ≠ name)) (n :: ns) =
          n :: List.filter (fun m => decide (m ≠ name)) ns := by
        simp [hn]
      rw [h1, h2, ih, List.length_cons, List.replicate_succ]

theorem merge_matches_cases {rrows : List (List Cell)} {ri : Nat} {ks : List Cell} (k : Cell)
    (hks2 : rrows.map (fun r => r.getD ri Cell.null) = ks) (hnd : ks.Nodup) :
    (rrows.filter (fun rrow => decide (rrow.getD ri Cell.null = k)) = [] ∨
      ∃ m, rrows.filter (fun rrow => decide (rrow.getD ri Cell.null = k)) = [m]) ∧
    (k ∉ ks → rrows.filter (fun rrow => decide (rrow.getD ri Cell.null = k)) = []) := by
  constructor
  · have hle : (rrows.filter (fun rrow => decide (rrow.getD ri Cell.null = k))).length ≤ 1 :=
      filter_length_le_one_of_nodup_map (hks2 ▸ hnd)
    cases hflt : rrows.filter (fun rrow => decide (rrow.getD ri Cell.null = k)) with
    | nil => exact Or.inl rfl
    | cons m rest =>
      right
      rw [hflt] at hle
      simp only [List.length_cons] at hle
      have : rest = [] := List.length_eq_zero.mp (by omega)
      exact ⟨m, by rw [this]⟩
  · intro hk
    rw [List.filter_eq_nil_iff]
    intro r hr
    simp only [decide_eq_true_eq]
    intro he
    refine hk ?_
    rw [← hks2, ← he]
    exact List.mem_map_of_mem _ hr

/-- C5: the fusion stage of FieldDataProcessor.process left-joins the
field table with the station mapping on Field_ID and then removes the
positional-index artifact column Unnamed: 0.  Given that the mapping has
at most one row per Field_ID (Nodup key column), the output has exactly
one row per field row (count preserved), each output row starts with the
corresponding field row unchanged (every field row is retained in order,
so mapping rows without a matching field row contribute nothing), the
artifact column is gone, and a field row whose key has no mapping entry is
padded with null cells - in particular its weather station id is null. -/
theorem fuse_with_mapping_spec (df wmap : DFrame) (fks ks : List Cell)
    (hrectL : ∀ r ∈ df.rows, r.length = df.header.length)
    (hUL : "Unnamed: 0" ∉ df.header)
    (hU : "Unnamed: 0" ∈ wmap.header)
    (hfks : df.col "Field_ID" = some fks)
    (hks : wmap.col "Field_ID" = some ks)
    (hnd : ks.Nodup) :
    ∃ out, fuse_with_mapping df wmap = some out ∧
      out.rows.length = df.rows.length ∧
      out.rows.map (fun r => r.take df.header.length) = df.rows ∧
      "Unnamed: 0" ∉ out.header ∧
      (∀ (i : Nat) (row : List Cell) (k : Cell), df.rows[i]? = some row →
        fks[i]? = some k → k ∉ ks →
        out.rows[i]? = some (row ++
          List.replicate (out.header.length - df.header.length) Cell.null)) := by
  rcases Option.map_eq_some'.mp hfks with ⟨li, hli, hfks2⟩
  rcases Option.map_eq_some'.mp hks with ⟨ri, hri, hks2⟩
  set g : List Cell → List (List Cell) := fun lrow =>
      if (wmap.rows.filter (fun rrow =>
           decide (rrow.getD ri Cell.null = lrow.getD li Cell.null))).isEmpty
      then [lrow ++ List.replicate ((wmap.header.eraseIdx ri).length) Cell.null]
      else (wmap.rows.filter (fun rrow =>
           decide (rrow.getD ri Cell.null = lrow.getD li Cell.null))).map
           (fun rrow => lrow ++ rrow.eraseIdx ri) with hg
  have hmerge : DFrame.mergeLeft df wmap "Field_ID" = some
      ⟨df.header ++ wmap.header.eraseIdx ri, df.rows.flatMap g⟩ := by
    rw [DFrame.mergeLeft, hli, some_bind_eq, hri, some_bind_eq]
  have hshape : ∀ lrow ∈ df.rows, ∃ tail : List Cell,
      g lrow = [lrow ++ tail] ∧
      (lrow.getD li Cell.null ∉ ks →
        tail = List.replicate ((wmap.header.eraseIdx ri).length) Cell.null) := by
    intro lrow _
    rcases merge_matches_cases (lrow.getD li Cell.null) hks2 hnd with
      ⟨hcases, hnomatch⟩
    rcases hcases with hnil | ⟨m, hm⟩
    · refine ⟨List.replicate ((wmap.header.eraseIdx ri).length) Cell.null, ?_,
        fun _ => rfl⟩
      simp only [hg]
      rw [hnil]
      rfl
    · refine ⟨m.eraseIdx ri, ?_, ?_⟩
      · simp only [hg]
        rw [hm]
        rfl
      · intro hk
        rw [hnomatch hk] at hm
        cases hm
  have hrows_eq : df.rows.flatMap g = df.rows.map (fun lrow => (g lrow).headD []) :=
    flatMap_singleton_map (fun lrow hl => by
      rcases hshape lrow hl with ⟨t, ht, _⟩
      exact ⟨lrow ++ t, ht⟩)
  have hUR : "Unnamed: 0" ∈ wmap.header.eraseIdx ri := by
    refine mem_eraseIdx_of_getElem?_ne hU (colIdx_get hri) ?_
    decide
  have hUM : "Unnamed: 0" ∈ df.header ++ wmap.header.eraseIdx ri :=
    List.mem_append.mpr (Or.inr hUR)
  rcases colIdx_of_mem hUM with ⟨ui, hui⟩
  have hdrop : DFrame.dropCol
      ⟨df.header ++ wmap.header.eraseIdx ri, df.rows.flatMap g⟩ "Unnamed: 0" = some
      ⟨(df.header ++ wmap.header.eraseIdx ri).filter (fun n => decide (n ≠ "Unnamed: 0")),
       (df.rows.flatMap g).map
         (dropCells (df.header ++ wmap.header.eraseIdx ri) "Unnamed: 0")⟩ := by
    rw [DFrame.dropCol]
    simp only [hui]
  have hheader : (df.header ++ wmap.header.eraseIdx ri).filter
      (fun n => decide (n ≠ "Unnamed: 0")) =
      df.header ++ (wmap.header.eraseIdx ri).filter
        (fun n => decide (n ≠ "Unnamed: 0")) := by
    rw [List.filter_append]
    congr 1
    rw [List.filter_eq_self]
    intro n hn
    simp only [decide_eq_true_eq]
    intro e
    exact hUL (e ▸ hn)
  refine ⟨⟨df.header ++ (wmap.header.eraseIdx ri).filter
      (fun n => decide (n ≠ "Unnamed: 0")),
    (df.rows.flatMap g).map
      (dropCells (df.header ++ wmap.header.eraseIdx ri) "Unnamed: 0")⟩,
    ?_, ?_, ?_, ?_, ?_⟩
  · rw [fuse_with_mapping, hmerge, some_obind, hdrop, hheader]
  · rw [hrows_eq]
    simp
  · rw [hrows_eq, List.map_map, List.map_map]
    have hpt : ∀ lrow ∈ df.rows,
        ((dropCells (df.header ++ wmap.header.eraseIdx ri) "Unnamed: 0"
          ((g lrow).headD [])).take df.header.length) = lrow := by
      intro lrow hl
      rcases hshape lrow hl with ⟨t, ht, _⟩
      rw [ht]
      simp only [List.headD_cons]
      rw [dropCells_append (hrectL lrow hl).symm,
        dropCells_not_mem hUL (hrectL lrow hl).symm, ← hrectL lrow hl]
      exact List.take_left lrow _
    refine (List.map_congr_left (fun lrow hl => ?_)).trans (List.map_id df.rows)
    simp only [Function.comp_apply, id_eq]
    exact hpt lrow hl
  · intro hmem
    rcases List.mem_append.mp hmem with h | h
    · exact hUL h
    · rcases List.mem_filter.mp h with ⟨_, hpred⟩
      simp at hpred
  · intro i row k hirow hfki hknot
    have hkrow : k = row.getD li Cell.null := by
      rw [← hfks2, List.getElem?_map, hirow] at hfki
      simpa using hfki.symm
    have hrmem : row ∈ df.rows := mem_of_getElem?_eq hirow
    rcases hshape row hrmem with ⟨t, ht, hnull⟩
    have ht2 : t = List.replicate ((wmap.header.eraseIdx ri).length) Cell.null := by
      refine hnull ?_
      rw [← hkrow]
      exact hknot
    have hcnt : (DFrame.mk (df.header ++ (wmap.header.eraseIdx ri).filter
        (fun n => decide (n ≠ "Unnamed: 0"))) ((df.rows.flatMap g).map
          (dropCells (df.header ++ wmap.header.eraseIdx ri)
            "Unnamed: 0"))).header.length - df.header.length =
        ((wmap.header.eraseIdx ri).filter (fun n => decide (n ≠ "Unnamed: 0"))).length := by
      simp [List.length_append]
    rw [hcnt, hrows_eq, List.getElem?_map, List.getElem?_map, hirow]
    simp only [Option.map_some']
    rw [ht]
    simp only [List.headD_cons]
    rw [ht2, dropCells_append (hrectL row hrmem).symm,
      dropCells_not_mem hUL (hrectL row hrmem).symm, dropCells_replicate]

/-- C5 witness: a two-field table against a one-entry mapping - field 1
gets its station, field 2 has no mapping entry and is padded with a null
station, the row count is preserved and the artifact column is gone. -/
theorem fuse_with_mapping_witness :
    ∃ out, fuse_with_mapping fuseFieldEx wmapEx = some out ∧
      out.rows.length = fuseFieldEx.rows.length ∧
      out.rows.map (fun r => r.take fuseFieldEx.header.length) = fuseFieldEx.rows ∧
      "Unnamed: 0" ∉ out.header ∧
      (∀ (i : Nat) (row : List Cell) (k : Cell), fuseFieldEx.rows[i]? = some row →
        [Cell.num 1, Cell.num 2][i]? = some k → k ∉ [Cell.num 1] →
        out.rows[i]? = some (row ++
          List.replicate (out.header.length - fuseFieldEx.header.length) Cell.null)) :=
  fuse_with_mapping_spec fuseFieldEx wmapEx [Cell.num 1, Cell.num 2] [Cell.num 1]
    (by decide) (by decide) (by decide) rfl rfl (by decide)
